import Mathlib

/-!
# Verification of the snouty parameter pipeline

Shallow embedding of the parameter-parsing, merging, redaction and
validation pipeline of the snouty CLI (`src/main.rs`, `src/params.rs`),
together with theorems settling the spec's claims about it.

JSON values (`serde_json::Value`) are modelled by `Snouty.Value` with
numbers as `Int` (enough for the inputs appearing here), and
`serde_json::Map<String, Value>` by an association list `Snouty.JMap`
whose `insert` replaces the value of an existing key in place and
otherwise appends, matching key-wise map semantics.
-/

namespace Snouty

/-- Embedding of `serde_json::Value`: JSON-like values.  Numbers are
modelled as `Int`, which covers every number occurring in the claims. -/
inductive Value where
  | null
  | bool (b : Bool)
  | num (n : Int)
  | str (s : String)
  | arr (elems : List Value)
  | obj (entries : List (String × Value))

/-- Embedding of `serde_json::Map<String, Value>` as an association list. -/
abbrev JMap := List (String × Value)

/-- Key lookup in a `JMap` (first matching entry). -/
def JMap.lookup : JMap → String → Option Value
  | [], _ => none
  | kv :: rest, k => if kv.1 = k then some kv.2 else JMap.lookup rest k

/-- `Map::insert`: replace the value of an existing key in place,
otherwise append the new entry. -/
def JMap.insert : JMap → String → Value → JMap
  | [], k, v => [(k, v)]
  | kv :: rest, k, v =>
    if kv.1 = k then (k, v) :: rest else kv :: JMap.insert rest k v

/-- The entry-wise map-insertion step shared by `Params::merge` and the
`parse_args` loop: insert one `(key, value)` entry. -/
def insStep (m : JMap) (kv : String × Value) : JMap :=
  JMap.insert m kv.1 kv.2

/-- Embedding of Rust's `str::starts_with`, written over the character
list of the string so that it evaluates by reduction. -/
def strStartsWith (s pre : String) : Bool :=
  s.data.take pre.data.length == pre.data

/-- Embedding of the remainder after `str::strip_prefix` (dropping the
first `n` characters). -/
def strDrop (s : String) (n : Nat) : String :=
  ⟨s.data.drop n⟩

/-- Embedding of Rust's `str::ends_with`, written over the character list
of the string so that it evaluates by reduction. -/
def strEndsWith (s suf : String) : Bool :=
  decide (suf.data.length ≤ s.data.length) &&
    s.data.drop (s.data.length - suf.data.length) == suf.data

/-- Embedding of the error kinds of `src/error.rs` reachable from the
parameter pipeline. -/
inductive Error where
  | invalidArgs (msg : String)
  | validationFailed (errors : List String)

/-- `true` exactly on `Err(Error::InvalidArgs(_))` results. -/
def isInvalidArgs {α : Type} : Except Error α → Bool
  | .error (.invalidArgs _) => true
  | _ => false

/-- Embedding of `Params` (src/params.rs lines 10-13): a wrapper around a
JSON object map. -/
structure Params where
  inner : JMap

/-- Loop body of `parse_args` (src/params.rs lines 89-116): tokens are
consumed pairwise; a token starting with `--` designates a key (which must
be non-empty) and the immediately following token is its string value. -/
def parse_args_loop (m : JMap) : List String → Except Error JMap
  | [] => .ok m
  | arg :: rest =>
    if strStartsWith arg "--" then
      if strDrop arg 2 = "" then
        .error (.invalidArgs "empty key after --")
      else
        match rest with
        | [] => .error (.invalidArgs ("missing value for --" ++ strDrop arg 2))
        | v :: rest2 =>
          parse_args_loop (JMap.insert m (strDrop arg 2) (Value.str v)) rest2
    else
      .error (.invalidArgs ("unexpected argument: " ++ arg))

/-- Embedding of `parse_args` (src/params.rs lines 89-116), starting from
the empty map. -/
def parse_args (args : List String) : Except Error JMap :=
  parse_args_loop [] args

/-- Embedding of `Params::from_args` (src/params.rs lines 19-26). -/
def Params.from_args (args : List String) : Except Error Params :=
  (parse_args args).map (fun m => ⟨m⟩)

/-- Embedding of `Params::from_json` (src/params.rs lines 31-38): the value
must be a JSON object, whose entries are taken over unchanged. -/
def Params.from_json (value : Value) : Except Error Params :=
  match value with
  | .obj entries => .ok ⟨entries⟩
  | _ => .error (.invalidArgs "expected JSON object")

/-- Embedding of `Params::merge` (src/params.rs lines 61-65): every entry
of `other` is inserted into `self`, so `other` takes priority. -/
def Params.merge (self other : Params) : Params :=
  ⟨other.inner.foldl insStep self.inner⟩

/-- Embedding of `is_sensitive_key` (src/params.rs lines 85-87). -/
def is_sensitive_key (key : String) : Bool :=
  strEndsWith key ".token" || key = "antithesis.report.recipients"

/-- Embedding of `Params::to_redacted_map` (src/params.rs lines 69-82):
values of sensitive keys are replaced by `"[REDACTED]"`. -/
def Params.to_redacted_map (self : Params) : JMap :=
  self.inner.map (fun kv =>
    if is_sensitive_key kv.1 then (kv.1, Value.str "[REDACTED]") else kv)

/-- Redaction as a map-to-map operation (applying `to_redacted_map` to a
raw map), used to state idempotence of redaction. -/
def redactMap (m : JMap) : JMap :=
  Params.to_redacted_map ⟨m⟩

/-- Embedding of `get_params` (src/main.rs lines 82-98).  Reading and
textually parsing stdin is I/O done by external libraries (`json5`,
and the `moment` module's text recognizer), so the stdin content is
abstracted by `stdinVal`, the JSON value the stdin text parses to; the
claims settled against this definition concern the JSON stdin path, for
which `is_moment_format` is false.  The control flow is the source's: when
`use_stdin` is set the trailing `args` are never consulted. -/
def get_params (args : List String) (use_stdin : Bool) (stdinVal : Value) :
    Except Error Params :=
  if use_stdin then
    Params.from_json stdinVal
  else if args = [] then
    .error (.invalidArgs "no parameters provided")
  else
    Params.from_args args

/-! ## Output of the command success paths -/

/-- One print event of a command: a `println!` to standard output, an
`eprintln!` of the redacted parameter map (its pretty JSON rendering is
abstracted by carrying the map itself), or another `eprintln!` line. -/
inductive OutEvent where
  | out (s : String)
  | errParams (m : JMap)
  | errText (s : String)

/-- `true` exactly on standard-output events. -/
def isOutEvent : OutEvent → Bool
  | .out _ => true
  | _ => false

/-- The print events of the success path of `cmd_run` (src/main.rs lines
130-172), in order: the redacted parameter view is printed to standard
error before the request is sent, and after a 2xx response only the
report-ETA line is printed to standard error.  `body` is the response
text (unused on this path: `cmd_run` never prints it outside debug-level
logging, which is off by default), `etaLine` the formatted ETA message
(clock access abstracted). -/
def cmd_run_success_events (params : Params) (_body etaLine : String) :
    List OutEvent :=
  [OutEvent.errParams (Params.to_redacted_map params),
   OutEvent.errText etaLine]

/-- The print events of the success path of `cmd_debug` (src/main.rs lines
174-212), in order: the redacted parameter view to standard error before
sending, then after a 2xx response the raw body via `println!` to standard
output, then the ETA line to standard error. -/
def cmd_debug_success_events (params : Params) (body etaLine : String) :
    List OutEvent :=
  [OutEvent.errParams (Params.to_redacted_map params),
   OutEvent.out body,
   OutEvent.errText etaLine]

/-! ## The debuggingParams validation profile

`validate_against_def` (src/params.rs lines 118-145) re-roots the schema
document `params_schema.json` at a named definition and collects every
violation.  The schema file itself is not under `src/`. -/

/-- Modelled from the spec: the required keys of the `debuggingParams`
profile of `params_schema.json`, which is referenced by
`include_str!` in src/params.rs line 7 but is not under `src/`.  Per spec
§3/§4.4 and the unit tests of src/params.rs (lines 229-264), the profile
requires exactly the three debugging keys and is closed. -/
def debuggingRequiredKeys : List String :=
  ["antithesis.debugging.input_hash",
   "antithesis.debugging.session_id",
   "antithesis.debugging.vtime"]

/-- Modelled from the spec: the violation list produced when validating a
parameter map against the `debuggingParams` definition of the missing
`params_schema.json`.  Per spec §4.4 all violations are collected in one
pass: a "missing required property" message for each absent required key,
and an "additional property ... not allowed" message for each present key
outside the closed key set. -/
def validate_debugging_def (params : JMap) : List String :=
  (debuggingRequiredKeys.filter
      (fun k => (JMap.lookup params k).isNone)).map
    (fun k => "missing required property " ++ k)
  ++ (params.filter
      (fun kv => !(decide (kv.1 ∈ debuggingRequiredKeys)))).map
    (fun kv => "additional property " ++ kv.1 ++ " not allowed")

/-- Embedding of `Params::validate_debugging_params` (src/params.rs lines
46-48) composed with the error wrapper of `validate_against_def`
(src/params.rs lines 130-144): an empty violation list validates, a
non-empty one becomes `Error::ValidationFailed`. -/
def Params.validate_debugging_params (p : Params) : Except Error Unit :=
  let errors := validate_debugging_def p.inner
  if errors = [] then .ok () else .error (.validationFailed errors)

/-! ## The Moment.from alternate-format parser

`src/main.rs` declares `pub mod moment;` and calls `moment::parse`, but
`moment.rs` is not under `src/`. -/

/-- Modelled from the spec: the top-level key remapping of the missing
`moment` module.  Per spec §4.2 and the repository tests
(tests/cli.rs lines 225-243), the recognized top-level keys of a
`Moment.from({...})` literal are remapped into the fixed
`antithesis.debugging` namespace. -/
def moment_remap_key (k : String) : Option String :=
  if k = "session_id" then some "antithesis.debugging.session_id"
  else if k = "input_hash" then some "antithesis.debugging.input_hash"
  else if k = "vtime" then some "antithesis.debugging.vtime"
  else none

/-- Modelled from the spec: the key-remapping pass of the missing
`moment::parse` over the already-lexed top-level entries of the object
literal (textual lexing abstracted; values are stored as strings per spec
§4.2).  An unrecognized top-level key fails with `InvalidArguments`
naming the offending key. -/
def moment_remap_entries : List (String × String) → Except Error JMap
  | [] => .ok []
  | (k, v) :: rest =>
    match moment_remap_key k with
    | some k2 =>
      (moment_remap_entries rest).map (fun m => (k2, Value.str v) :: m)
    | none => .error (.invalidArgs ("unrecognized key in Moment.from: " ++ k))

/-! ## Claim-side definitions -/

/-- The failure condition of claim C5 on a token sequence, checked at each
key position: a flag-marker token with an empty key (bare `--`), a token
lacking the flag marker where a key is expected, or a designated key with
no following value token. -/
def hasParseFailure : List String → Bool
  | [] => false
  | arg :: rest =>
    if !(strStartsWith arg "--") then true
    else if strDrop arg 2 = "" then true
    else
      match rest with
      | [] => true
      | _ :: rest2 => hasParseFailure rest2

/-- The (key, value) pairs designated by a token sequence, pairing each
key token (with its `--` marker stripped) with the following token. -/
def argPairs : List String → List (String × String)
  | a :: v :: rest => (strDrop a 2, v) :: argPairs rest
  | _ => []

/-- The map obtained by inserting the given string pairs in order into the
empty map, each value as a JSON string. -/
def buildMap (ps : List (String × String)) : JMap :=
  (ps.map (fun kv => (kv.1, Value.str kv.2))).foldl insStep []

/-- The value of the last pair with the given key, if any. -/
def lastVal : List (String × String) → String → Option String
  | [], _ => none
  | kv :: rest, k =>
    match lastVal rest k with
    | some v => some v
    | none => if kv.1 = k then some kv.2 else none

/-- The value of the last entry with the given key in a `JMap`, if any. -/
def lastValV : JMap → String → Option Value
  | [], _ => none
  | kv :: rest, k =>
    match lastValV rest k with
    | some v => some v
    | none => if kv.1 = k then some kv.2 else none

/-- How many pairs carry the given key. -/
def countKey (ps : List (String × String)) (k : String) : Nat :=
  ps.countP (fun kv => kv.1 == k)

/-- How many entries of a `JMap` carry the given key. -/
def countKeyMap (m : JMap) (k : String) : Nat :=
  m.countP (fun kv => kv.1 == k)

/-- `true` exactly on JSON string values. -/
def isStrVal : Value → Bool
  | .str _ => true
  | _ => false

/-! ## Map lemmas -/

theorem JMap.lookup_insert (m : JMap) (k : String) (v : Value) (k' : String) :
    JMap.lookup (JMap.insert m k v) k' =
      if k' = k then some v else JMap.lookup m k' := by
  induction m with
  | nil =>
    by_cases h : k' = k
    · subst h; simp [JMap.insert, JMap.lookup]
    · simp [JMap.insert, JMap.lookup, h, Ne.symm h]
  | cons kv rest ih =>
    simp only [JMap.insert]
    by_cases h1 : kv.1 = k
    · rw [if_pos h1]
      by_cases h2 : k' = k
      · subst h2; simp [JMap.lookup]
      · simp only [JMap.lookup, if_neg h2]
        rw [if_neg (fun hh => h2 hh.symm), if_neg (h1 ▸ fun hh => h2 hh.symm)]
    · rw [if_neg h1]
      by_cases h3 : kv.1 = k'
      · have hne : ¬ k' = k := fun hh => h1 (hh ▸ h3)
        simp only [JMap.lookup, if_pos h3, if_neg hne]
      · simp only [JMap.lookup, if_neg h3, ih]

theorem JMap.mem_keys_insert (m : JMap) (k : String) (v : Value) (k' : String) :
    k' ∈ (JMap.insert m k v).map Prod.fst ↔ k' ∈ m.map Prod.fst ∨ k' = k := by
  induction m with
  | nil => simp [JMap.insert, eq_comm]
  | cons kv rest ih =>
    simp only [JMap.insert]
    by_cases h1 : kv.1 = k
    · rw [if_pos h1]
      simp [h1, eq_comm, or_comm, or_assoc]
    · rw [if_neg h1]
      simp only [List.map_cons, List.mem_cons, ih]
      tauto

theorem JMap.nodup_keys_insert (m : JMap) (k : String) (v : Value)
    (h : (m.map Prod.fst).Nodup) : ((JMap.insert m k v).map Prod.fst).Nodup := by
  induction m with
  | nil => simp [JMap.insert]
  | cons kv rest ih =>
    simp only [List.map_cons, List.nodup_cons] at h
    simp only [JMap.insert]
    by_cases h1 : kv.1 = k
    · rw [if_pos h1]
      simp only [List.map_cons, List.nodup_cons]
      exact ⟨h1 ▸ h.1, h.2⟩
    · rw [if_neg h1]
      simp only [List.map_cons, List.nodup_cons]
      refine ⟨fun hmem => ?_, ih h.2⟩
      rcases (JMap.mem_keys_insert rest k v kv.1).mp hmem with hin | heq
      · exact h.1 hin
      · exact h1 heq

theorem JMap.length_insert_le (m : JMap) (k : String) (v : Value) :
    (JMap.insert m k v).length ≤ m.length + 1 := by
  induction m with
  | nil => simp [JMap.insert]
  | cons kv rest ih =>
    simp only [JMap.insert]
    by_cases h1 : kv.1 = k
    · rw [if_pos h1]; simp
    · rw [if_neg h1]
      simpa using Nat.succ_le_succ ih

theorem JMap.lookup_eq_none_iff (m : JMap) (k : String) :
    JMap.lookup m k = none ↔ k ∉ m.map Prod.fst := by
  induction m with
  | nil => simp [JMap.lookup]
  | cons kv rest ih =>
    simp only [JMap.lookup, List.map_cons, List.mem_cons]
    by_cases h : kv.1 = k
    · simp [h]
    · have h' : ¬ k = kv.1 := fun hh => h hh.symm
      simp [h, h', ih]

theorem JMap.mem_insert (m : JMap) (k : String) (v : Value)
    (kv : String × Value) (h : kv ∈ JMap.insert m k v) :
    kv = (k, v) ∨ kv ∈ m := by
  induction m with
  | nil => simpa [JMap.insert] using h
  | cons kv0 rest ih =>
    simp only [JMap.insert] at h
    by_cases h1 : kv0.1 = k
    · rw [if_pos h1] at h
      rcases List.mem_cons.mp h with h2 | h2
      · exact Or.inl h2
      · exact Or.inr (List.mem_cons_of_mem _ h2)
    · rw [if_neg h1] at h
      rcases List.mem_cons.mp h with h2 | h2
      · exact Or.inr (h2 ▸ List.mem_cons_self _ _)
      · rcases ih h2 with h3 | h3
        · exact Or.inl h3
        · exact Or.inr (List.mem_cons_of_mem _ h3)

theorem JMap.lookup_foldl_insert (ps : JMap) :
    ∀ (m0 : JMap) (k : String),
      JMap.lookup (ps.foldl insStep m0) k =
        match lastValV ps k with
        | some v => some v
        | none => JMap.lookup m0 k := by
  induction ps with
  | nil => intro m0 k; simp [lastValV]
  | cons kv rest ih =>
    intro m0 k
    simp only [List.foldl_cons, lastValV]
    rw [ih]
    cases hrest : lastValV rest k with
    | some v => simp
    | none =>
      simp only [insStep, JMap.lookup_insert]
      by_cases h : kv.1 = k
      · simp [h]
      · have h' : ¬ k = kv.1 := fun hh => h hh.symm
        simp [h, h']

theorem JMap.nodup_keys_foldl_insert (ps : JMap) :
    ∀ (m0 : JMap), (m0.map Prod.fst).Nodup →
      ((ps.foldl insStep m0).map Prod.fst).Nodup := by
  induction ps with
  | nil => intro m0 h; simpa using h
  | cons kv rest ih =>
    intro m0 h
    simp only [List.foldl_cons]
    exact ih _ (JMap.nodup_keys_insert m0 kv.1 kv.2 h)

theorem JMap.length_foldl_insert_le (ps : JMap) :
    ∀ (m0 : JMap), (ps.foldl insStep m0).length ≤ m0.length + ps.length := by
  induction ps with
  | nil => intro m0; simp
  | cons kv rest ih =>
    intro m0
    simp only [List.foldl_cons, List.length_cons]
    calc (rest.foldl insStep (insStep m0 kv)).length
        ≤ (insStep m0 kv).length + rest.length := ih _
      _ ≤ (m0.length + 1) + rest.length :=
          Nat.add_le_add_right (JMap.length_insert_le m0 kv.1 kv.2) _
      _ = m0.length + (rest.length + 1) := by omega

theorem lastValV_eq_lookup (ps : JMap) (k : String)
    (h : (ps.map Prod.fst).Nodup) : lastValV ps k = JMap.lookup ps k := by
  induction ps with
  | nil => rfl
  | cons kv rest ih =>
    simp only [List.map_cons, List.nodup_cons] at h
    simp only [lastValV, JMap.lookup]
    rw [ih h.2]
    by_cases h1 : kv.1 = k
    · have hnone : JMap.lookup rest k = none :=
        (JMap.lookup_eq_none_iff rest k).mpr (h1 ▸ h.1)
      rw [hnone]
    · cases hl : JMap.lookup rest k with
      | some v => simp [h1]
      | none => rfl

theorem lastValV_map_str (ps : List (String × String)) (k : String) :
    lastValV (ps.map (fun kv => (kv.1, Value.str kv.2))) k =
      Option.map Value.str (lastVal ps k) := by
  induction ps with
  | nil => rfl
  | cons kv rest ih =>
    simp only [List.map_cons, lastValV, lastVal, ih]
    cases hrest : lastVal rest k with
    | some v => simp
    | none =>
      by_cases h : kv.1 = k <;> simp [h]

theorem lookup_buildMap (ps : List (String × String)) (k : String) :
    JMap.lookup (buildMap ps) k = Option.map Value.str (lastVal ps k) := by
  rw [buildMap, JMap.lookup_foldl_insert, lastValV_map_str]
  cases lastVal ps k <;> simp [JMap.lookup]

theorem nodup_keys_buildMap (ps : List (String × String)) :
    ((buildMap ps).map Prod.fst).Nodup :=
  JMap.nodup_keys_foldl_insert _ [] (by simp)

/-! ## Parse-loop lemmas -/

theorem parse_ok_eq : ∀ (args : List String) (m0 : JMap),
    hasParseFailure args = false →
    parse_args_loop m0 args =
      Except.ok
        (((argPairs args).map (fun kv => (kv.1, Value.str kv.2))).foldl insStep m0)
  | [], _, _ => rfl
  | [a], _, h => by
    exfalso
    cases hs : strStartsWith a "--"
    · simp [hasParseFailure, hs] at h
    · by_cases hd : strDrop a 2 = "" <;> simp [hasParseFailure, hs, hd] at h
  | a :: v :: rest, m0, h => by
    cases hs : strStartsWith a "--"
    · simp [hasParseFailure, hs] at h
    · by_cases hd : strDrop a 2 = ""
      · simp [hasParseFailure, hs, hd] at h
      · have h' : hasParseFailure rest = false := by
          simpa [hasParseFailure, hs, hd] using h
        simp only [parse_args_loop, hs, if_true, if_neg hd, argPairs,
          List.map_cons, List.foldl_cons]
        exact parse_ok_eq rest _ h'

theorem parse_fail_eq : ∀ (args : List String) (m0 : JMap),
    hasParseFailure args = true →
    isInvalidArgs (parse_args_loop m0 args) = true
  | [], _, h => by simp [hasParseFailure] at h
  | [a], m0, _ => by
    cases hs : strStartsWith a "--"
    · simp [parse_args_loop, hs, isInvalidArgs]
    · by_cases hd : strDrop a 2 = "" <;>
        simp [parse_args_loop, hs, hd, isInvalidArgs]
  | a :: v :: rest, m0, h => by
    cases hs : strStartsWith a "--"
    · simp [parse_args_loop, hs, isInvalidArgs]
    · by_cases hd : strDrop a 2 = ""
      · simp [parse_args_loop, hs, hd, isInvalidArgs]
      · have h' : hasParseFailure rest = true := by
          simpa [hasParseFailure, hs, hd] using h
        simp only [parse_args_loop, hs, if_true, if_neg hd]
        exact parse_fail_eq rest _ h'

theorem parse_loop_vals_str : ∀ (args : List String) (m0 m : JMap),
    parse_args_loop m0 args = Except.ok m →
    ∀ kv ∈ m, kv ∈ m0 ∨ isStrVal kv.2 = true
  | [], m0, m, h => by
    intro kv hkv
    simp only [parse_args_loop] at h
    cases h
    exact Or.inl hkv
  | [a], m0, m, h => by
    intro kv hkv
    exfalso
    cases hs : strStartsWith a "--"
    · simp [parse_args_loop, hs] at h
    · by_cases hd : strDrop a 2 = "" <;> simp [parse_args_loop, hs, hd] at h
  | a :: v :: rest, m0, m, h => by
    intro kv hkv
    cases hs : strStartsWith a "--"
    · simp [parse_args_loop, hs] at h
    · by_cases hd : strDrop a 2 = ""
      · simp [parse_args_loop, hs, hd] at h
      · simp only [parse_args_loop, hs, if_true, if_neg hd] at h
        rcases parse_loop_vals_str rest _ m h kv hkv with hin | hstr
        · rcases JMap.mem_insert m0 _ _ kv hin with heq | hin0
          · exact Or.inr (by rw [heq]; rfl)
          · exact Or.inl hin0
        · exact Or.inr hstr

theorem lastVal_isSome_of_countKey_pos :
    ∀ (ps : List (String × String)) (k : String),
      0 < countKey ps k → (lastVal ps k).isSome = true := by
  intro ps
  induction ps with
  | nil => intro k h; simp [countKey] at h
  | cons kv rest ih =>
    intro k h
    simp only [lastVal]
    cases hrest : lastVal rest k with
    | some v => simp
    | none =>
      have h0 : countKey rest k = 0 := by
        by_contra hne
        have hs := ih k (Nat.pos_of_ne_zero hne)
        rw [hrest] at hs
        simp at hs
      simp only [countKey, List.countP_cons] at h
      rw [show List.countP (fun kv => kv.1 == k) rest = 0 from h0] at h
      by_cases hk : kv.1 = k
      · simp [hk]
      · simp [hk] at h

theorem countKeyMap_eq_count_keys (m : JMap) (k : String) :
    countKeyMap m k = (m.map Prod.fst).count k := by
  rw [countKeyMap, List.count, List.countP_map]
  rfl

theorem countKeyMap_eq_one_of_nodup_mem (m : JMap) (k : String)
    (hn : (m.map Prod.fst).Nodup) (hm : k ∈ m.map Prod.fst) :
    countKeyMap m k = 1 := by
  rw [countKeyMap_eq_count_keys]
  have h1 : (m.map Prod.fst).count k ≤ 1 :=
    List.nodup_iff_count_le_one.mp hn k
  have h2 : 0 < (m.map Prod.fst).count k := List.count_pos_iff.mpr hm
  omega

/-! ## Claim theorems -/

/-- C1: the claim says that when both stdin input and trailing `--key value`
arguments are supplied, the submitted ParameterSet is the merge of both
sources.  The code does not do this: `get_params` returns only the
stdin-derived parameters and never consults the trailing arguments, as
this evaluation at the failing input of the repository test
`run_merges_stdin_json_with_cli_args` (tests/cli.rs) shows — the key given
on the command line is absent from the resulting set. -/
theorem c1_get_params_stdin_drops_trailing_args :
    get_params ["--antithesis.report.recipients", "team@example.com"] true
        (Value.obj [("antithesis.duration", Value.str "60")]) =
      Except.ok ⟨[("antithesis.duration", Value.str "60")]⟩ ∧
    JMap.lookup [("antithesis.duration", Value.str "60")]
      "antithesis.report.recipients" = none :=
  ⟨rfl, rfl⟩

/-- C2 counterexample: on the spec's own example token sequence,
`parse_args` stores both integration-pattern keys flat and verbatim; no
object value is grouped under `ns.integrations.gh` (its lookup is `none`),
contradicting the claimed nested-integration grouping. -/
theorem c2_integration_keys_not_grouped :
    parse_args ["--ns.integrations.gh.token", "t",
                "--ns.integrations.gh.url", "u"] =
      Except.ok [("ns.integrations.gh.token", Value.str "t"),
                 ("ns.integrations.gh.url", Value.str "u")] ∧
    JMap.lookup [("ns.integrations.gh.token", Value.str "t"),
                 ("ns.integrations.gh.url", Value.str "u")]
      "ns.integrations.gh" = none :=
  ⟨rfl, rfl⟩

/-- C2 amended: `parse_args` performs no nested-integration grouping; every
key, including those matching the `<namespace>.integrations.<provider>.<field>`
pattern, is inserted flat and verbatim with its string value — the parsed
map binds exactly the keys appearing in the token pairs, each to the string
value of its last pair. -/
theorem c2_parse_args_inserts_keys_flat (args : List String)
    (h : hasParseFailure args = false) :
    parse_args args = Except.ok (buildMap (argPairs args)) ∧
    ∀ k : String, JMap.lookup (buildMap (argPairs args)) k =
      Option.map Value.str (lastVal (argPairs args) k) :=
  ⟨parse_ok_eq args [] h, fun k => lookup_buildMap (argPairs args) k⟩

/-- C2 witness: the amended theorem applied to the spec's example sequence:
the result is the flat map and the grouped key is absent. -/
theorem c2_parse_args_inserts_keys_flat_witness :
    hasParseFailure ["--ns.integrations.gh.token", "t",
                     "--ns.integrations.gh.url", "u"] = false ∧
    parse_args ["--ns.integrations.gh.token", "t",
                "--ns.integrations.gh.url", "u"] =
      Except.ok [("ns.integrations.gh.token", Value.str "t"),
                 ("ns.integrations.gh.url", Value.str "u")] ∧
    JMap.lookup [("ns.integrations.gh.token", Value.str "t"),
                 ("ns.integrations.gh.url", Value.str "u")]
      "ns.integrations.gh" = none := by
  refine ⟨rfl, ?_, ?_⟩
  · exact (c2_parse_args_inserts_keys_flat
      ["--ns.integrations.gh.token", "t", "--ns.integrations.gh.url", "u"]
      rfl).1
  · exact (c2_parse_args_inserts_keys_flat
      ["--ns.integrations.gh.token", "t", "--ns.integrations.gh.url", "u"]
      rfl).2 "ns.integrations.gh"

/-- C3 counterexample: `Params::from_json` performs no coercion in either
direction, so a flat JSON object with a numeric value yields a
ParameterSet whose leaf is not a string, contradicting the claim that
every leaf of a `from_json`-built set is a string. -/
theorem c3_from_json_nonstring_leaf :
    Params.from_json (Value.obj [("antithesis.duration", Value.num 30)]) =
      Except.ok ⟨[("antithesis.duration", Value.num 30)]⟩ ∧
    isStrVal (Value.num 30) = false :=
  ⟨rfl, rfl⟩

/-- C3 amended: every leaf of a ParameterSet built by `Params::from_args`
is a string value; `Params::from_json` performs no coercion at all and
stores the input object's entries exactly as given (so its leaves are
strings exactly when the input JSON's values are strings). -/
theorem c3_leaf_value_invariant :
    (∀ (args : List String) (p : Params), Params.from_args args = Except.ok p →
      ∀ kv ∈ p.inner, isStrVal kv.2 = true) ∧
    (∀ (v : Value) (q : Params), Params.from_json v = Except.ok q →
      v = Value.obj q.inner) := by
  constructor
  · intro args p h kv hkv
    have h' : parse_args args = Except.ok p.inner := by
      cases hp : parse_args args with
      | ok m =>
        simp only [Params.from_args, hp, Except.map] at h
        cases h
        rfl
      | error e =>
        simp only [Params.from_args, hp, Except.map] at h
        exact Except.noConfusion h
    rcases parse_loop_vals_str args [] p.inner h' kv hkv with hin | hstr
    · simp at hin
    · exact hstr
  · intro v q h
    cases v with
    | obj entries =>
      simp only [Params.from_json] at h
      cases h
      rfl
    | null => simp [Params.from_json] at h
    | bool b => simp [Params.from_json] at h
    | num n => simp [Params.from_json] at h
    | str s => simp [Params.from_json] at h
    | arr xs => simp [Params.from_json] at h

/-- C3 witness: the amended theorem applied to a CLI-parsed set (all-string
leaf) and to a JSON object taken over unchanged. -/
theorem c3_leaf_value_invariant_witness :
    Params.from_args ["--antithesis.duration", "30"] =
      Except.ok ⟨[("antithesis.duration", Value.str "30")]⟩ ∧
    isStrVal ("antithesis.duration", Value.str "30").2 = true ∧
    Value.obj [("x", Value.str "y")] =
      Value.obj (Params.mk [("x", Value.str "y")]).inner :=
  ⟨rfl,
   c3_leaf_value_invariant.1 ["--antithesis.duration", "30"]
     ⟨[("antithesis.duration", Value.str "30")]⟩ rfl
     ("antithesis.duration", Value.str "30") (List.mem_singleton.mpr rfl),
   c3_leaf_value_invariant.2 (Value.obj [("x", Value.str "y")])
     ⟨[("x", Value.str "y")]⟩ rfl⟩

/-- C4 counterexample: the success path of `cmd_run` produces no standard-
output event at all — in particular the raw response body is not printed
to standard output — contradicting the claim for the `run` command. -/
theorem c4_run_success_prints_nothing_to_stdout :
    (cmd_run_success_events ⟨[("antithesis.duration", Value.str "30")]⟩
        "response-body" "eta").any isOutEvent = false :=
  rfl

/-- C4 amended: on success, `cmd_debug` prints the redacted parameter view
to standard error before sending, then the raw response body to standard
output; `cmd_run` also prints the redacted view to standard error before
sending, but prints nothing to standard output (the body is only visible
through debug-level logging). -/
theorem c4_success_output_streams (p : Params) (body etaLine : String) :
    cmd_debug_success_events p body etaLine =
      [OutEvent.errParams (Params.to_redacted_map p), OutEvent.out body,
       OutEvent.errText etaLine] ∧
    (cmd_run_success_events p body etaLine).any isOutEvent = false ∧
    (cmd_run_success_events p body etaLine).head? =
      some (OutEvent.errParams (Params.to_redacted_map p)) :=
  ⟨rfl, rfl, rfl⟩

/-- C5: for every token sequence of even length alternating non-empty
flag-marker keys and value tokens (`hasParseFailure` false), `parse_args`
succeeds and produces a map with exactly one entry per key (its keys are
duplicate-free) whose value is the string of the token following that key
(the last such token when a key repeats); and parsing fails with
`InvalidArguments` exactly when a flag-marker token has an empty key, a
designated key has no following value token, or a token at a key position
lacks the `--` marker (`hasParseFailure` true). -/
theorem c5_parse_args_contract (args : List String) :
    (hasParseFailure args = false →
      parse_args args = Except.ok (buildMap (argPairs args)) ∧
      ((buildMap (argPairs args)).map Prod.fst).Nodup ∧
      ∀ k : String, JMap.lookup (buildMap (argPairs args)) k =
        Option.map Value.str (lastVal (argPairs args) k)) ∧
    (hasParseFailure args = true → isInvalidArgs (parse_args args) = true) :=
  ⟨fun h => ⟨parse_ok_eq args [] h, nodup_keys_buildMap _,
             fun k => lookup_buildMap _ k⟩,
   fun h => parse_fail_eq args [] h⟩

/-- C5 witness: the contract applied to the spec's example sequence, and
its failure half applied to a key with no following value. -/
theorem c5_parse_args_contract_witness :
    hasParseFailure ["--a", "1", "--b", "2"] = false ∧
    parse_args ["--a", "1", "--b", "2"] =
      Except.ok [("a", Value.str "1"), ("b", Value.str "2")] ∧
    hasParseFailure ["--a"] = true ∧
    isInvalidArgs (parse_args ["--a"]) = true := by
  refine ⟨rfl, ?_, rfl, ?_⟩
  · exact ((c5_parse_args_contract ["--a", "1", "--b", "2"]).1 rfl).1
  · exact (c5_parse_args_contract ["--a"]).2 rfl

/-- C6: validating against the debuggingParams profile yields an empty
violation list when all three required debugging keys are present and no
other key is; a map missing a required key yields a non-empty list
containing a message referencing that key; and a map containing any key
outside the profile's closed key set yields a non-empty list. -/
theorem c6_debugging_profile (p : JMap) :
    ((∀ r ∈ debuggingRequiredKeys, (JMap.lookup p r).isSome = true) →
     (∀ k ∈ p.map Prod.fst, k ∈ debuggingRequiredKeys) →
     validate_debugging_def p = []) ∧
    (∀ r ∈ debuggingRequiredKeys, JMap.lookup p r = none →
      validate_debugging_def p ≠ [] ∧
      ("missing required property " ++ r) ∈ validate_debugging_def p) ∧
    (∀ k ∈ p.map Prod.fst, k ∉ debuggingRequiredKeys →
      validate_debugging_def p ≠ []) := by
  refine ⟨fun h1 h2 => ?_, fun r hr hnone => ?_, fun k hk hout => ?_⟩
  · rw [validate_debugging_def]
    have hA : debuggingRequiredKeys.filter
        (fun k => (JMap.lookup p k).isNone) = [] := by
      rw [List.filter_eq_nil_iff]
      intro a ha hni
      have hs := h1 a ha
      rw [Option.isNone_iff_eq_none.mp hni] at hs
      simp at hs
    have hB : p.filter
        (fun kv => !(decide (kv.1 ∈ debuggingRequiredKeys))) = [] := by
      rw [List.filter_eq_nil_iff]
      intro kv hkv hneg
      have hmem : kv.1 ∈ debuggingRequiredKeys :=
        h2 kv.1 (List.mem_map_of_mem Prod.fst hkv)
      simp [hmem] at hneg
    rw [hA, hB]
    rfl
  · have hmemA : ("missing required property " ++ r) ∈
        (debuggingRequiredKeys.filter
          (fun k => (JMap.lookup p k).isNone)).map
          (fun k => "missing required property " ++ k) :=
      List.mem_map_of_mem _
        (List.mem_filter.mpr ⟨hr, by simp [hnone]⟩)
    have hmem : ("missing required property " ++ r) ∈
        validate_debugging_def p := by
      rw [validate_debugging_def]
      exact List.mem_append_left _ hmemA
    exact ⟨List.ne_nil_of_mem hmem, hmem⟩
  · rcases List.mem_map.mp hk with ⟨kv, hkv, hfst⟩
    have hmemB : ("additional property " ++ kv.1 ++ " not allowed") ∈
        (p.filter
          (fun kv => !(decide (kv.1 ∈ debuggingRequiredKeys)))).map
          (fun kv => "additional property " ++ kv.1 ++ " not allowed") :=
      List.mem_map_of_mem _
        (List.mem_filter.mpr ⟨hkv, by simp [hfst ▸ hout]⟩)
    have hmem : ("additional property " ++ kv.1 ++ " not allowed") ∈
        validate_debugging_def p := by
      rw [validate_debugging_def]
      exact List.mem_append_right _ hmemB
    exact List.ne_nil_of_mem hmem

/-- C6 witness: the profile theorem applied to the exact required key set
of the repository test `validate_debugging_params_success`. -/
theorem c6_debugging_profile_witness :
    validate_debugging_def
      [("antithesis.debugging.input_hash", Value.str "abc123"),
       ("antithesis.debugging.session_id", Value.str "sess-456"),
       ("antithesis.debugging.vtime", Value.str "1234567890")] = [] :=
  (c6_debugging_profile
    [("antithesis.debugging.input_hash", Value.str "abc123"),
     ("antithesis.debugging.session_id", Value.str "sess-456"),
     ("antithesis.debugging.vtime", Value.str "1234567890")]).1
    (by decide) (by decide)

/-- C7: `Params::merge` is right-biased and key-wise — for any key bound in
the overlay, the merged map holds the overlay's whole value; keys bound
only in the base keep their value; and the merged size is at most the sum
of the two sizes. -/
theorem c7_merge_right_biased (base overlay : Params) :
    ((overlay.inner.map Prod.fst).Nodup →
      (∀ (k : String) (v : Value), JMap.lookup overlay.inner k = some v →
        JMap.lookup (Params.merge base overlay).inner k = some v) ∧
      (∀ k : String, JMap.lookup overlay.inner k = none →
        JMap.lookup (Params.merge base overlay).inner k =
          JMap.lookup base.inner k)) ∧
    (Params.merge base overlay).inner.length ≤
      base.inner.length + overlay.inner.length := by
  constructor
  · intro hnd
    constructor
    · intro k v hv
      have h := JMap.lookup_foldl_insert overlay.inner base.inner k
      rw [lastValV_eq_lookup overlay.inner k hnd, hv] at h
      simpa [Params.merge] using h
    · intro k hnone
      have h := JMap.lookup_foldl_insert overlay.inner base.inner k
      rw [lastValV_eq_lookup overlay.inner k hnd, hnone] at h
      simpa [Params.merge] using h
  · simpa [Params.merge] using
      JMap.length_foldl_insert_le overlay.inner base.inner

/-- C7 witness: the merge theorem applied to the base/overlay pair of the
repository test `merge_params_overwrites_existing_keys`: the overlay wins
on the shared key, the base-only key survives, and the size is bounded. -/
theorem c7_merge_right_biased_witness :
    JMap.lookup (Params.merge
        ⟨[("antithesis.duration", Value.str "30"),
          ("antithesis.description", Value.str "base description")]⟩
        ⟨[("antithesis.duration", Value.str "60"),
          ("antithesis.report.recipients", Value.str "team@example.com")]⟩).inner
      "antithesis.duration" = some (Value.str "60") ∧
    JMap.lookup (Params.merge
        ⟨[("antithesis.duration", Value.str "30"),
          ("antithesis.description", Value.str "base description")]⟩
        ⟨[("antithesis.duration", Value.str "60"),
          ("antithesis.report.recipients", Value.str "team@example.com")]⟩).inner
      "antithesis.description" = some (Value.str "base description") ∧
    (Params.merge
        ⟨[("antithesis.duration", Value.str "30"),
          ("antithesis.description", Value.str "base description")]⟩
        ⟨[("antithesis.duration", Value.str "60"),
          ("antithesis.report.recipients", Value.str "team@example.com")]⟩).inner.length ≤
      2 + 2 := by
  have h := c7_merge_right_biased
    ⟨[("antithesis.duration", Value.str "30"),
      ("antithesis.description", Value.str "base description")]⟩
    ⟨[("antithesis.duration", Value.str "60"),
      ("antithesis.report.recipients", Value.str "team@example.com")]⟩
  refine ⟨(h.1 (by decide)).1 "antithesis.duration" (Value.str "60") rfl, ?_, h.2⟩
  exact ((h.1 (by decide)).2 "antithesis.description" rfl).trans rfl

/-- C8: redaction preserves the exact key list, replaces the value of
every key satisfying the sensitivity predicate (ending in `.token` or
equal to the report-recipients key) with the fixed `"[REDACTED]"` marker,
leaves every other entry unchanged, and is idempotent. -/
theorem c8_redaction (p : Params) :
    (Params.to_redacted_map p).map Prod.fst = p.inner.map Prod.fst ∧
    (∀ (k : String) (v : Value), (k, v) ∈ p.inner →
      (is_sensitive_key k = true →
        (k, Value.str "[REDACTED]") ∈ Params.to_redacted_map p) ∧
      (is_sensitive_key k = false → (k, v) ∈ Params.to_redacted_map p)) ∧
    redactMap (redactMap p.inner) = redactMap p.inner := by
  refine ⟨?_, fun k v hmem => ⟨fun hs => ?_, fun hs => ?_⟩, ?_⟩
  · simp only [Params.to_redacted_map, List.map_map]
    congr 1
    funext kv
    by_cases h : is_sensitive_key kv.1 <;> simp [h]
  · have h := List.mem_map_of_mem (fun kv =>
      if is_sensitive_key kv.1 then (kv.1, Value.str "[REDACTED]") else kv) hmem
    simpa [Params.to_redacted_map, hs] using h
  · have h := List.mem_map_of_mem (fun kv =>
      if is_sensitive_key kv.1 then (kv.1, Value.str "[REDACTED]") else kv) hmem
    simpa [Params.to_redacted_map, hs] using h
  · simp only [redactMap, Params.to_redacted_map, List.map_map]
    congr 1
    funext kv
    by_cases h : is_sensitive_key kv.1 <;> simp [h]

/-- C8 witness: the redaction theorem applied to a set holding a token key
and a plain key — the token value is replaced by the marker, the plain
entry survives unchanged. -/
theorem c8_redaction_witness :
    ("antithesis.integrations.github.token", Value.str "[REDACTED]") ∈
      Params.to_redacted_map
        ⟨[("antithesis.integrations.github.token", Value.str "secret_token_123"),
          ("antithesis.duration", Value.str "30")]⟩ ∧
    ("antithesis.duration", Value.str "30") ∈
      Params.to_redacted_map
        ⟨[("antithesis.integrations.github.token", Value.str "secret_token_123"),
          ("antithesis.duration", Value.str "30")]⟩ := by
  have h := c8_redaction
    ⟨[("antithesis.integrations.github.token", Value.str "secret_token_123"),
      ("antithesis.duration", Value.str "30")]⟩
  exact ⟨(h.2.1 "antithesis.integrations.github.token"
            (Value.str "secret_token_123") (List.mem_cons_self _ _)).1 (by decide),
         (h.2.1 "antithesis.duration" (Value.str "30")
            (List.mem_cons_of_mem _ (List.mem_cons_self _ _))).2 (by decide)⟩

/-- C9: Moment.from parsing remaps each recognized top-level key into the
fixed `antithesis.debugging` namespace (in particular a bare `session_id`
becomes `antithesis.debugging.session_id`), and when some top-level key is
unrecognized it fails with `InvalidArguments` naming the first offending
key. -/
theorem c9_moment_remap (entries : List (String × String)) :
    moment_remap_key "session_id" = some "antithesis.debugging.session_id" ∧
    ((entries.map Prod.fst).all (fun k => (moment_remap_key k).isSome) = true →
      moment_remap_entries entries =
        Except.ok (entries.map (fun kv =>
          ((moment_remap_key kv.1).getD kv.1, Value.str kv.2)))) ∧
    (∀ k : String,
      (entries.map Prod.fst).find? (fun k2 => (moment_remap_key k2).isNone) =
        some k →
      moment_remap_entries entries =
        Except.error
          (Error.invalidArgs ("unrecognized key in Moment.from: " ++ k))) := by
  refine ⟨rfl, ?_, ?_⟩
  · induction entries with
    | nil => intro _; rfl
    | cons kv rest ih =>
      intro h
      simp only [List.map_cons, List.all_cons, Bool.and_eq_true] at h
      cases hk : moment_remap_key kv.1 with
      | none => rw [hk] at h; simp at h
      | some k2 =>
        have hrec := ih h.2
        simp [moment_remap_entries, hk, hrec, Except.map]
  · induction entries with
    | nil => intro k h; simp at h
    | cons kv rest ih =>
      intro k h
      cases hk : moment_remap_key kv.1 with
      | none =>
        have hfind : (((kv :: rest).map Prod.fst).find?
            (fun k2 => (moment_remap_key k2).isNone)) = some kv.1 := by
          simp [List.find?_cons, hk]
        rw [hfind] at h
        have hkk : k = kv.1 := (Option.some.injEq _ _ ▸ h).symm
        subst hkk
        simp [moment_remap_entries, hk]
      | some k2 =>
        have hfind : (((kv :: rest).map Prod.fst).find?
            (fun k2 => (moment_remap_key k2).isNone)) =
            ((rest.map Prod.fst).find?
              (fun k2 => (moment_remap_key k2).isNone)) := by
          simp [List.find?_cons, hk]
        rw [hfind] at h
        have hrec := ih k h
        simp [moment_remap_entries, hk, hrec, Except.map]

/-- C9 witness: the remap theorem applied to the three-key Moment.from
entry list of the repository test `debug_with_moment_from_format`. -/
theorem c9_moment_remap_witness :
    moment_remap_entries
      [("session_id", "f89d5c11f5e3bf5e4bb3641809800cee-44-22"),
       ("input_hash", "6057726200491963783"),
       ("vtime", "329.8037810830865")] =
    Except.ok
      [("antithesis.debugging.session_id",
        Value.str "f89d5c11f5e3bf5e4bb3641809800cee-44-22"),
       ("antithesis.debugging.input_hash",
        Value.str "6057726200491963783"),
       ("antithesis.debugging.vtime", Value.str "329.8037810830865")] :=
  (c9_moment_remap
    [("session_id", "f89d5c11f5e3bf5e4bb3641809800cee-44-22"),
     ("input_hash", "6057726200491963783"),
     ("vtime", "329.8037810830865")]).2.1 (by decide)

/-- C10: when a well-formed token sequence designates the same key more
than once, `Params::from_args` succeeds and the resulting set contains
exactly one entry for that key, holding the string value of the last
occurrence. -/
theorem c10_duplicate_keys_last_wins (args : List String) (k : String)
    (hok : hasParseFailure args = false)
    (hdup : 1 < countKey (argPairs args) k) :
    Params.from_args args = Except.ok ⟨buildMap (argPairs args)⟩ ∧
    countKeyMap (buildMap (argPairs args)) k = 1 ∧
    JMap.lookup (buildMap (argPairs args)) k =
      Option.map Value.str (lastVal (argPairs args) k) := by
  refine ⟨?_, ?_, lookup_buildMap _ _⟩
  · simp only [Params.from_args, parse_args, parse_ok_eq args [] hok, Except.map]
    rfl
  · apply countKeyMap_eq_one_of_nodup_mem _ _ (nodup_keys_buildMap _)
    have hsome : (lastVal (argPairs args) k).isSome = true :=
      lastVal_isSome_of_countKey_pos _ _ (by omega)
    have hlk : JMap.lookup (buildMap (argPairs args)) k ≠ none := by
      rw [lookup_buildMap]
      cases hl : lastVal (argPairs args) k with
      | none => rw [hl] at hsome; simp at hsome
      | some v => simp
    by_contra hmem
    exact hlk ((JMap.lookup_eq_none_iff _ _).mpr hmem)

/-- C10 witness: the duplicate-key theorem applied to a sequence that
designates `--a` twice — the result holds a single entry with the value of
the last occurrence. -/
theorem c10_duplicate_keys_last_wins_witness :
    hasParseFailure ["--a", "1", "--a", "2"] = false ∧
    1 < countKey (argPairs ["--a", "1", "--a", "2"]) "a" ∧
    Params.from_args ["--a", "1", "--a", "2"] =
      Except.ok ⟨[("a", Value.str "2")]⟩ ∧
    countKeyMap [("a", Value.str "2")] "a" = 1 := by
  have h := c10_duplicate_keys_last_wins ["--a", "1", "--a", "2"] "a"
    rfl (by decide)
  exact ⟨rfl, by decide, h.1, h.2.1⟩

end Snouty

